import Mathlib

/-!
# Access control lists (`hw3/aclist.c`)

A shallow embedding of the access-control-list module.  The singly linked
chain of `AccessControlEntry` nodes hanging off `acl->aces` is a `List`, a
`NULL` list pointer is `none`, the fixed-size `char` buffers are lists of
`MAX_LENGTH` characters, and every function that mutates through its pointer
argument returns the new list next to its status code.
-/

namespace ACL

/-! ## Constants of `aclist.h` -/

/-- Modelled from the spec: the status-code macros of `aclist.h`, which is not
among the sources.  The spec names them as distinct outcomes; their numeric
values are not used by `aclist.c`. -/
inductive StatusCode where
  | INITIALIZE_SUCCESS
  | INITIALIZE_FAILURE
  | ADD_ENTRY_SUCCESS
  | ADD_ENTRY_FAILURE
  | LIST_EMPTY_ERROR
  | USER_NOT_FOUND
  | ADD_RIGHT_SUCCESS
  | ADD_RIGHT_FAILURE
  | DELETE_RIGHT_SUCCESS
  | DELETE_RIGHT_FAILURE
  | DELETE_ENTRY_SUCCESS
  | FREE_ACL_SUCCESS
  deriving DecidableEq, Repr

/-- Modelled from the spec: the macro `R_OWN` of `aclist.h` (bit 3, printed `o`). -/
def R_OWN : Int := 8

/-- Modelled from the spec: the macro `R_READ` of `aclist.h` (bit 2, printed `r`). -/
def R_READ : Int := 4

/-- Modelled from the spec: the macro `R_WRITE` of `aclist.h` (bit 1, printed `w`). -/
def R_WRITE : Int := 2

/-- Modelled from the spec: the macro `R_EXECUTE` of `aclist.h` (bit 0, printed `x`). -/
def R_EXECUTE : Int := 1

/-- What an `int`-returning function hands back: a status macro, or an integer
literal written in the source. -/
inductive Ret where
  | named (c : StatusCode)
  | lit (n : Int)
  deriving DecidableEq, Repr

/-- The ways a call can stop without returning. -/
inductive Fault where
  | nullDereference
  deriving DecidableEq, Repr

deriving instance DecidableEq for Except

/-! ## The bitwise operators on `int` -/

/-- The bits of `m` that are not bits of `n`. -/
def natDiff (m n : Nat) : Nat := m ^^^ (m &&& n)

/-- The operator `~` on a two's complement `int`. -/
def bitNot : Int → Int
  | Int.ofNat m => Int.negSucc m
  | Int.negSucc m => Int.ofNat m

/-- The operator `|` on two's complement `int`s. -/
def bitOr : Int → Int → Int
  | Int.ofNat m, Int.ofNat n => Int.ofNat (m ||| n)
  | Int.ofNat m, Int.negSucc n => Int.negSucc (natDiff n m)
  | Int.negSucc m, Int.ofNat n => Int.negSucc (natDiff m n)
  | Int.negSucc m, Int.negSucc n => Int.negSucc (m &&& n)

/-- The operator `&` on two's complement `int`s. -/
def bitAnd : Int → Int → Int
  | Int.ofNat m, Int.ofNat n => Int.ofNat (m &&& n)
  | Int.ofNat m, Int.negSucc n => Int.ofNat (natDiff m n)
  | Int.negSucc m, Int.ofNat n => Int.ofNat (natDiff n m)
  | Int.negSucc m, Int.negSucc n => Int.negSucc (m ||| n)

/-! ## C strings -/

/-- The terminating byte of a C string. -/
def NUL : Char := Char.ofNat 0

/-- The string a `char *` denotes: the bytes before the first `NUL`. -/
def cstr (mem : List Char) : List Char :=
  mem.takeWhile (fun c => c != NUL)

/-- The call `strcmp(a, b)`: zero exactly when both strings have the same bytes
before their terminator, otherwise negative or positive by the
lexicographic order of the bytes. -/
def strcmp (a b : List Char) : Int :=
  if cstr a = cstr b then 0
  else if cstr a < cstr b then -1
  else 1

/-- The call `strncpy(dst, src, n)` into a buffer of `n` bytes: the bytes of
`src` up to `n` of them, padded with `NUL` when `src` is shorter than `n`; no
terminator is written when `src` has `n` bytes or more. -/
def strncpy (src : List Char) (n : Nat) : List Char :=
  (cstr src).take n ++ List.replicate (n - (cstr src).length) NUL

/-! ## Data model -/

/-- One node of the entry chain (`AccessControlEntry`), without its `next` link. -/
structure AccessControlEntry where
  user : List Char
  rights : Int
  deriving DecidableEq, Repr

/-- The list head (`AccessControlList`): the filename buffer and the chain `aces`. -/
structure AccessControlList where
  filename : List Char
  aces : List AccessControlEntry
  deriving DecidableEq, Repr

/-! ## Operations -/

/-- The function `initializeACL`.  The handle `aclPtr` is `none` when it is
`NULL`, `some none` when it points to a `NULL` list pointer and `some (some l)`
when it already points to a list; the result carries the handle's new
contents. -/
def initializeACL (MAX_LENGTH : Nat) (filename : List Char)
    (aclPtr : Option (Option AccessControlList)) :
    StatusCode × Option (Option AccessControlList) :=
  match aclPtr with
  | none => (.INITIALIZE_FAILURE, none)
  | some (some l) => (.INITIALIZE_FAILURE, some (some l))
  | some none =>
    (.INITIALIZE_SUCCESS,
      some (some { filename := strncpy filename MAX_LENGTH, aces := [] }))

/-- The function `addEntry`. -/
def addEntry (MAX_LENGTH : Nat) (newUser : List Char) (rights : Int)
    (acl : Option AccessControlList) : Ret × Option AccessControlList :=
  match acl with
  | none => (.named .ADD_ENTRY_FAILURE, none)
  | some l =>
    -- strncpy(newNode->user, newUser, MAX_LENGTH); newNode->user[MAX_LENGTH-1] = 0
    let newNode : AccessControlEntry :=
      { user := (strncpy newUser MAX_LENGTH).set (MAX_LENGTH - 1) NUL, rights := rights }
    match l.aces with
    | [] => (.named .ADD_ENTRY_SUCCESS, some { l with aces := [newNode] })
    | e :: es => (.lit 0, some { l with aces := newNode :: e :: es })

/-- The guard `acl == NULL || acl->aces == NULL` that opens `addRight`,
`deleteRight` and `deleteEntry`. -/
def listEmpty (acl : Option AccessControlList) : Bool :=
  match acl with
  | none => true
  | some l => l.aces.isEmpty

/-- The test `right` fails in `addRight` and `deleteRight`: the value is none of
the four flags. -/
def invalidRight (right : Int) : Bool :=
  (right != R_OWN) && (right != R_READ) && (right != R_WRITE) && (right != R_EXECUTE)

/-- The `for` loop of `addRight` from `currentNode` on: the chain after the
loop and the final `userFound`. -/
def addRightLoop (right : Int) (username : List Char) :
    List AccessControlEntry → Bool → List AccessControlEntry × Bool
  | [], userFound => ([], userFound)
  | currentNode :: next, userFound =>
    if strcmp currentNode.user username = 0 then
      let r := addRightLoop right username next true
      ({ currentNode with rights := bitOr currentNode.rights right } :: r.1, r.2)
    else
      let r := addRightLoop right username next userFound
      (currentNode :: r.1, r.2)

/-- The function `addRight`. -/
def addRight (right : Int) (username : List Char) (acl : Option AccessControlList) :
    StatusCode × Option AccessControlList :=
  match acl with
  | none => (.LIST_EMPTY_ERROR, none)
  | some l =>
    if l.aces = [] then (.LIST_EMPTY_ERROR, some l)
    else if invalidRight right then (.ADD_RIGHT_FAILURE, some l)
    else
      let r := addRightLoop right username l.aces false
      if !r.2 then (.USER_NOT_FOUND, some { l with aces := r.1 })
      else (.ADD_RIGHT_SUCCESS, some { l with aces := r.1 })

/-- The `for` loop of `deleteRight` from `currentNode` on. -/
def deleteRightLoop (right : Int) (username : List Char) :
    List AccessControlEntry → Bool → List AccessControlEntry × Bool
  | [], userFound => ([], userFound)
  | currentNode :: next, userFound =>
    if strcmp currentNode.user username = 0 then
      let r := deleteRightLoop right username next true
      ({ currentNode with rights := bitAnd currentNode.rights (bitNot right) } :: r.1, r.2)
    else
      let r := deleteRightLoop right username next userFound
      (currentNode :: r.1, r.2)

/-- The function `deleteRight`. -/
def deleteRight (right : Int) (username : List Char) (acl : Option AccessControlList) :
    StatusCode × Option AccessControlList :=
  match acl with
  | none => (.LIST_EMPTY_ERROR, none)
  | some l =>
    if l.aces = [] then (.LIST_EMPTY_ERROR, some l)
    else if invalidRight right then (.DELETE_RIGHT_FAILURE, some l)
    else
      let r := deleteRightLoop right username l.aces false
      if !r.2 then (.USER_NOT_FOUND, some { l with aces := r.1 })
      else (.DELETE_RIGHT_SUCCESS, some { l with aces := r.1 })

/-- The `while (*ptr != NULL)` loop of `deleteEntry`.  The argument is the chain
`*ptr` heads; the result is the chain stored at `*ptr` when the loop ends and
the final `userFound`.  When the node at `*ptr` matches it is unlinked, so
`*ptr` becomes its successor; the statement `ptr = &((*ptr)->next)` then runs
in either case and steps over whatever node `*ptr` now is, which is a fault
when `*ptr` is `NULL`. -/
def deleteEntryLoop (username : List Char) :
    List AccessControlEntry → Bool → Except Fault (List AccessControlEntry × Bool)
  | [], userFound => .ok ([], userFound)
  | [e], userFound =>
    if strcmp e.user username = 0 then
      -- *ptr = (*ptr)->next leaves *ptr == NULL, then (*ptr)->next
      .error .nullDereference
    else
      -- ptr = &((*ptr)->next); *ptr == NULL ends the loop
      .ok ([e], userFound)
  | e :: e2 :: rest, userFound =>
    if strcmp e.user username = 0 then
      -- e is unlinked and freed, *ptr is e2; ptr moves to &(e2->next)
      match deleteEntryLoop username rest true with
      | .ok r => .ok (e2 :: r.1, r.2)
      | .error f => .error f
    else
      -- ptr moves to &(e->next)
      match deleteEntryLoop username (e2 :: rest) userFound with
      | .ok r => .ok (e :: r.1, r.2)
      | .error f => .error f

/-- The function `deleteEntry`. -/
def deleteEntry (username : List Char) (acl : Option AccessControlList) :
    Except Fault (StatusCode × Option AccessControlList) :=
  match acl with
  | none => .ok (.LIST_EMPTY_ERROR, none)
  | some l =>
    if l.aces = [] then .ok (.LIST_EMPTY_ERROR, some l)
    else
      match deleteEntryLoop username l.aces false with
      | .error f => .error f
      | .ok r =>
        if !r.2 then .ok (.USER_NOT_FOUND, some { l with aces := r.1 })
        else .ok (.DELETE_ENTRY_SUCCESS, some { l with aces := r.1 })

/-- Modelled from the spec: the macro `NUMBER_OF_RIGHTS` of `aclist.h`, the
count of the four flags. -/
def NUMBER_OF_RIGHTS : Nat := 4

/-- The table `rightChars` of `printACL`: the character of the right `2^i` is
at position `i`. -/
def rightChars : List Char := "xwro".toList

/-- What `%s` prints for a `char` buffer of a struct: the bytes before the
first `NUL` when the buffer holds one; `none` when it holds none, as the read
then runs past the end of the buffer. -/
def readString (buf : List Char) : Option (List Char) :=
  if NUL ∈ buf then some (cstr buf) else none

/-- The `for (i = NUMBER_OF_RIGHTS - 1; i >= 0; i--)` loop of `printACL`, the
argument being `i + 1`: the characters it prints.  The value
`(int)(pow(2, i))` is `2 ^ i`, a power that a `double` holds exactly. -/
def printRights (rights : Int) : Nat → List Char
  | 0 => []
  | i + 1 =>
    (if bitAnd rights (Int.ofNat (2 ^ i)) ≠ 0 then [rightChars.getD i NUL] else [])
      ++ printRights rights i

/-- The `while (currentNode != NULL)` loop of `printACL`: the text it prints. -/
def printEntries : List AccessControlEntry → Option (List Char)
  | [] => some []
  | currentNode :: next =>
    match readString currentNode.user with
    | none => none
    | some user =>
      match printEntries next with
      | none => none
      | some rest =>
        some (", ".toList ++ user ++ " (".toList
          ++ printRights currentNode.rights NUMBER_OF_RIGHTS ++ ")".toList ++ rest)

/-- The function `printACL`: the text written to standard output, `none` when
a `%s` reads a buffer without terminator. -/
def printACL (acl : Option AccessControlList) : Option (List Char) :=
  match acl with
  | none => some ("printList: (".toList ++ " empty access control list )\n".toList)
  | some l =>
    match readString l.filename with
    | none => none
    | some filename =>
      match (if l.aces ≠ [] then printEntries l.aces else some "  No entries.".toList) with
      | none => none
      | some body =>
        some ("printList: (".toList ++ ("File: ".toList ++ filename ++ ". ".toList)
          ++ body ++ ") \n".toList)

/-- The `while (*ptr != NULL)` loop of `freeACL`: `ptr` stays at `&acl->aces`,
each round unlinks the head `temp` of the chain and passes it to `free`.  The
first argument is the chain `*ptr` heads, the second the nodes freed so far, in
order. -/
def freeACLLoop : List AccessControlEntry → List AccessControlEntry → List AccessControlEntry
  | [], freed => freed
  | temp :: next, freed => freeACLLoop next (freed ++ [temp])

/-- The function `freeACL`: its status code, the entries passed to `free` in
order, and whether the list head was passed to `free`. -/
def freeACL (acl : Option AccessControlList) : StatusCode × List AccessControlEntry × Bool :=
  match acl with
  | none => (.FREE_ACL_SUCCESS, [], false)
  | some l => (.FREE_ACL_SUCCESS, freeACLLoop l.aces [], true)

/-! ## Sequences of calls -/

/-- One call of a mutating operation by a client that holds a list. -/
inductive Call where
  | addEntry (newUser : List Char) (rights : Int)
  | addRight (right : Int) (username : List Char)
  | deleteRight (right : Int) (username : List Char)
  | deleteEntry (username : List Char)
  deriving DecidableEq, Repr

/-- The list after one call, or the fault the call ends in. -/
def call (MAX_LENGTH : Nat) (acl : Option AccessControlList) :
    Call → Except Fault (Option AccessControlList)
  | .addEntry newUser rights => .ok (addEntry MAX_LENGTH newUser rights acl).2
  | .addRight right username => .ok (addRight right username acl).2
  | .deleteRight right username => .ok (deleteRight right username acl).2
  | .deleteEntry username =>
    match deleteEntry username acl with
    | .ok r => .ok r.2
    | .error f => .error f

/-- The list after a sequence of calls, made one after the other. -/
def runCalls (MAX_LENGTH : Nat) :
    Option AccessControlList → List Call → Except Fault (Option AccessControlList)
  | acl, [] => .ok acl
  | acl, c :: cs =>
    match call MAX_LENGTH acl c with
    | .ok acl2 => runCalls MAX_LENGTH acl2 cs
    | .error f => .error f

/-! ## Sample data -/

/-- The entry for user `al` with rights `r` in a buffer of four bytes. -/
def aceAl (r : Int) : AccessControlEntry :=
  { user := ['a', 'l', NUL, NUL], rights := r }

/-- The entry for user `bob` with rights `r` in a buffer of four bytes. -/
def aceBob (r : Int) : AccessControlEntry :=
  { user := ['b', 'o', 'b', NUL], rights := r }

/-- A list for `f` holding the given entries. -/
def aclOf (es : List AccessControlEntry) : Option AccessControlList :=
  some { filename := ['f', NUL, NUL, NUL], aces := es }

/-! ## The bitwise operators agree with the library's -/

theorem natDiff_eq_ldiff (m n : Nat) : natDiff m n = Nat.ldiff m n := by
  apply Nat.eq_of_testBit_eq
  intro k
  rw [Nat.testBit_ldiff]
  simp only [natDiff, Nat.testBit_xor, Nat.testBit_and]
  cases m.testBit k <;> cases n.testBit k <;> rfl

theorem bitNot_eq_lnot (a : Int) : bitNot a = Int.lnot a := by
  cases a <;> rfl

theorem bitOr_eq_lor (a b : Int) : bitOr a b = Int.lor a b := by
  cases a <;> cases b <;> simp [bitOr, Int.lor, natDiff_eq_ldiff]

theorem bitAnd_eq_land (a b : Int) : bitAnd a b = Int.land a b := by
  cases a <;> cases b <;> simp [bitAnd, Int.land, natDiff_eq_ldiff]

theorem testBit_bitNot (a : Int) (k : Nat) : (bitNot a).testBit k = !a.testBit k := by
  rw [bitNot_eq_lnot, Int.testBit_lnot]

theorem testBit_bitOr (a b : Int) (k : Nat) :
    (bitOr a b).testBit k = (a.testBit k || b.testBit k) := by
  rw [bitOr_eq_lor, Int.testBit_lor]

theorem testBit_bitAnd (a b : Int) (k : Nat) :
    (bitAnd a b).testBit k = (a.testBit k && b.testBit k) := by
  rw [bitAnd_eq_land, Int.testBit_land]

theorem testBit_zero_int (k : Nat) : (0 : Int).testBit k = false := by
  show Nat.testBit 0 k = false
  simp

/-- Two integers with the same bits are equal. -/
theorem int_eq_of_testBit_eq {a b : Int} (h : ∀ k, a.testBit k = b.testBit k) : a = b := by
  have big : ∀ m n : Nat, Nat.testBit m (m + n) = false ∧ Nat.testBit n (m + n) = false := by
    intro m n
    have hm : m < 2 ^ (m + n) :=
      lt_of_lt_of_le (Nat.lt_two_pow m) (Nat.pow_le_pow_right (by norm_num) (by omega))
    have hn : n < 2 ^ (m + n) :=
      lt_of_lt_of_le (Nat.lt_two_pow n) (Nat.pow_le_pow_right (by norm_num) (by omega))
    exact ⟨Nat.testBit_lt_two_pow hm, Nat.testBit_lt_two_pow hn⟩
  cases a with
  | ofNat m =>
    cases b with
    | ofNat n =>
      have hmn : m = n := Nat.eq_of_testBit_eq (by simpa [Int.testBit] using h)
      rw [hmn]
    | negSucc n =>
      exfalso
      have h1 := h (m + n)
      simp [Int.testBit, (big m n).1, (big m n).2] at h1
  | negSucc m =>
    cases b with
    | ofNat n =>
      exfalso
      have h1 := h (m + n)
      simp [Int.testBit, (big m n).1, (big m n).2] at h1
    | negSucc n =>
      have hmn : m = n := Nat.eq_of_testBit_eq (by
        intro k
        have h1 := h k
        simpa [Int.testBit] using h1)
      rw [hmn]

/-- Setting a flag and then clearing it is the same as clearing it. -/
theorem bitAnd_bitOr_bitNot (R F : Int) :
    bitAnd (bitOr R F) (bitNot F) = bitAnd R (bitNot F) := by
  apply int_eq_of_testBit_eq
  intro k
  simp only [testBit_bitAnd, testBit_bitOr, testBit_bitNot]
  cases R.testBit k <;> cases F.testBit k <;> rfl

/-- Clearing a flag changes nothing exactly when no bit of it was set. -/
theorem bitAnd_bitNot_eq_self_iff (R F : Int) :
    bitAnd R (bitNot F) = R ↔ bitAnd R F = 0 := by
  constructor
  · intro h
    apply int_eq_of_testBit_eq
    intro k
    have h1 := congrArg (fun x => Int.testBit x k) h
    simp only [testBit_bitAnd, testBit_bitNot] at h1
    rw [testBit_bitAnd, testBit_zero_int]
    revert h1
    cases R.testBit k <;> cases F.testBit k <;> simp
  · intro h
    apply int_eq_of_testBit_eq
    intro k
    have h1 := congrArg (fun x => Int.testBit x k) h
    simp only [testBit_bitAnd, testBit_zero_int] at h1
    simp only [testBit_bitAnd, testBit_bitNot]
    revert h1
    cases R.testBit k <;> cases F.testBit k <;> simp

/-! ## Facts about the helpers -/

theorem strcmp_eq_zero_iff (a b : List Char) : strcmp a b = 0 ↔ cstr a = cstr b := by
  unfold strcmp
  by_cases h : cstr a = cstr b
  · simp [h]
  · by_cases h2 : cstr a < cstr b <;> simp [h, h2]

theorem canonical_not_invalid {right : Int}
    (h : right = R_OWN ∨ right = R_READ ∨ right = R_WRITE ∨ right = R_EXECUTE) :
    invalidRight right = false := by
  rcases h with h | h | h | h <;> subst h <;> decide

theorem invalid_of_not_canonical {right : Int}
    (h : ¬ (right = R_OWN ∨ right = R_READ ∨ right = R_WRITE ∨ right = R_EXECUTE)) :
    invalidRight right = true := by
  simp only [not_or] at h
  simp [invalidRight, h]

theorem addRightLoop_fst (right : Int) (username : List Char) (es : List AccessControlEntry)
    (found : Bool) :
    (addRightLoop right username es found).1 =
      es.map (fun e => if cstr e.user = cstr username
        then { user := e.user, rights := bitOr e.rights right } else e) := by
  induction es generalizing found with
  | nil => rfl
  | cons e es ih =>
    by_cases h : cstr e.user = cstr username
    · simp [addRightLoop, strcmp_eq_zero_iff, h, ih]
    · simp [addRightLoop, strcmp_eq_zero_iff, h, ih]

theorem addRightLoop_snd (right : Int) (username : List Char) (es : List AccessControlEntry)
    (found : Bool) :
    (addRightLoop right username es found).2 = true ↔
      found = true ∨ ∃ e ∈ es, cstr e.user = cstr username := by
  induction es generalizing found with
  | nil => simp [addRightLoop]
  | cons e es ih =>
    by_cases h : cstr e.user = cstr username
    · simp [addRightLoop, strcmp_eq_zero_iff, h, ih]
    · simp [addRightLoop, strcmp_eq_zero_iff, h, ih]

theorem deleteRightLoop_fst (right : Int) (username : List Char) (es : List AccessControlEntry)
    (found : Bool) :
    (deleteRightLoop right username es found).1 =
      es.map (fun e => if cstr e.user = cstr username
        then { user := e.user, rights := bitAnd e.rights (bitNot right) } else e) := by
  induction es generalizing found with
  | nil => rfl
  | cons e es ih =>
    by_cases h : cstr e.user = cstr username
    · simp [deleteRightLoop, strcmp_eq_zero_iff, h, ih]
    · simp [deleteRightLoop, strcmp_eq_zero_iff, h, ih]

theorem deleteRightLoop_snd (right : Int) (username : List Char) (es : List AccessControlEntry)
    (found : Bool) :
    (deleteRightLoop right username es found).2 = true ↔
      found = true ∨ ∃ e ∈ es, cstr e.user = cstr username := by
  induction es generalizing found with
  | nil => simp [deleteRightLoop]
  | cons e es ih =>
    by_cases h : cstr e.user = cstr username
    · simp [deleteRightLoop, strcmp_eq_zero_iff, h, ih]
    · simp [deleteRightLoop, strcmp_eq_zero_iff, h, ih]

/-- What `addRight` does on a list with entries when the flag is canonical. -/
theorem addRight_eq (right : Int) (username : List Char) (l : AccessControlList)
    (hF : right = R_OWN ∨ right = R_READ ∨ right = R_WRITE ∨ right = R_EXECUTE)
    (hne : l.aces ≠ []) :
    addRight right username (some l) =
      (if ∃ e ∈ l.aces, cstr e.user = cstr username
        then StatusCode.ADD_RIGHT_SUCCESS else StatusCode.USER_NOT_FOUND,
       some { filename := l.filename,
              aces := l.aces.map (fun e => if cstr e.user = cstr username
                then { user := e.user, rights := bitOr e.rights right } else e) }) := by
  have hs := addRightLoop_snd right username l.aces false
  by_cases hm : ∃ e ∈ l.aces, cstr e.user = cstr username
  · have h2 : (addRightLoop right username l.aces false).2 = true := hs.2 (Or.inr hm)
    simp only [addRight, hne, canonical_not_invalid hF, if_false, h2, addRightLoop_fst, hm,
      if_true, Bool.not_true, Bool.false_eq_true]
  · have h2 : (addRightLoop right username l.aces false).2 = false := by
      cases hb : (addRightLoop right username l.aces false).2
      · rfl
      · exact absurd (hs.1 hb) (by simp [hm])
    simp only [addRight, hne, canonical_not_invalid hF, if_false, h2, addRightLoop_fst, hm,
      if_true, Bool.not_false, Bool.false_eq_true]

/-- What `deleteRight` does on a list with entries when the flag is canonical. -/
theorem deleteRight_eq (right : Int) (username : List Char) (l : AccessControlList)
    (hF : right = R_OWN ∨ right = R_READ ∨ right = R_WRITE ∨ right = R_EXECUTE)
    (hne : l.aces ≠ []) :
    deleteRight right username (some l) =
      (if ∃ e ∈ l.aces, cstr e.user = cstr username
        then StatusCode.DELETE_RIGHT_SUCCESS else StatusCode.USER_NOT_FOUND,
       some { filename := l.filename,
              aces := l.aces.map (fun e => if cstr e.user = cstr username
                then { user := e.user, rights := bitAnd e.rights (bitNot right) } else e) }) := by
  have hs := deleteRightLoop_snd right username l.aces false
  by_cases hm : ∃ e ∈ l.aces, cstr e.user = cstr username
  · have h2 : (deleteRightLoop right username l.aces false).2 = true := hs.2 (Or.inr hm)
    simp only [deleteRight, hne, canonical_not_invalid hF, if_false, h2, deleteRightLoop_fst, hm,
      if_true, Bool.not_true, Bool.false_eq_true]
  · have h2 : (deleteRightLoop right username l.aces false).2 = false := by
      cases hb : (deleteRightLoop right username l.aces false).2
      · rfl
      · exact absurd (hs.1 hb) (by simp [hm])
    simp only [deleteRight, hne, canonical_not_invalid hF, if_false, h2, deleteRightLoop_fst, hm,
      if_true, Bool.not_false, Bool.false_eq_true]

theorem cstr_no_NUL (mem : List Char) : ∀ c ∈ cstr mem, (c != NUL) = true := by
  intro c hc
  have h : (fun x : Char => x != NUL) c = true :=
    @List.mem_takeWhile_imp Char (fun x => x != NUL) mem c hc
  exact h

/-- The bytes a buffer of `M` bytes holds after `strncpy` from a string `s` and
the write of a terminator at index `M - 1`. -/
theorem buffer_takeWhile (s : List Char) (hs : ∀ c ∈ s, (c != NUL) = true) (M : Nat)
    (hM : 0 < M) :
    ((s.take M ++ List.replicate (M - s.length) NUL).set (M - 1) NUL).takeWhile
        (fun c => c != NUL) = s.take (M - 1) ∧
    ((s.take M ++ List.replicate (M - s.length) NUL).set (M - 1) NUL).length = M := by
  obtain ⟨n, rfl⟩ : ∃ n, M = n + 1 := ⟨M - 1, by omega⟩
  constructor
  · simp only [Nat.add_sub_cancel]
    by_cases hlen : s.length ≤ n
    · obtain ⟨k, hk⟩ : ∃ k, n + 1 - s.length = k + 1 := ⟨n - s.length, by omega⟩
      rw [List.take_of_length_le (by omega), hk, List.set_append_right _ _ hlen,
        List.set_replicate_self, List.takeWhile_append_of_pos hs, List.replicate_succ,
        List.takeWhile_cons_of_neg (by simp), List.append_nil, List.take_of_length_le hlen]
    · have hlt : n < s.length := by omega
      have h0 : n + 1 - s.length = 0 := by omega
      have hlen2 : (s.take n).length = n := by simp; omega
      rw [h0, List.replicate_zero, List.append_nil, List.take_succ, List.getElem?_eq_getElem hlt]
      simp only [Option.toList_some]
      rw [List.set_append_right _ _ (by omega), hlen2, Nat.sub_self]
      simp only [List.set_cons_zero]
      rw [List.takeWhile_append_of_pos (fun c hc => hs c (List.mem_of_mem_take hc)),
        List.takeWhile_cons_of_neg (by simp), List.append_nil]
  · simp only [List.length_set, List.length_append, List.length_take, List.length_replicate]
    omega

/-- The loop of `deleteEntry` changes nothing when no entry matches. -/
theorem deleteEntryLoop_no_match (username : List Char) (es : List AccessControlEntry)
    (found : Bool) (hno : ∀ e ∈ es, cstr e.user ≠ cstr username) :
    deleteEntryLoop username es found = .ok (es, found) := by
  induction es with
  | nil => rfl
  | cons e es ih =>
    have he : ¬ strcmp e.user username = 0 := by
      rw [strcmp_eq_zero_iff]
      exact hno e (List.mem_cons_self e es)
    cases es with
    | nil => simp [deleteEntryLoop, he]
    | cons e2 rest =>
      have ih2 := ih (fun x hx => hno x (List.mem_cons_of_mem e hx))
      simp [deleteEntryLoop, he, ih2]

theorem listEmpty_eq_false_iff (acl : Option AccessControlList) :
    listEmpty acl = false ↔ ∃ l, acl = some l ∧ l.aces ≠ [] := by
  cases acl with
  | none => simp [listEmpty]
  | some l => simp [listEmpty]

/-! ## `deleteEntry`: every match removed (C1) -/

/-- C1, evaluated where it fails: user `bob` heads two adjacent entries; the
call reports `DELETE_ENTRY_SUCCESS` but unlinks only the first of them, the
second is stepped over and stays in the list, while the sequence filtered to
the entries of other users holds the entry of `al` alone. -/
theorem deleteEntry_adjacent_duplicate_survives :
    deleteEntry "bob".toList (aclOf [aceBob 4, aceBob 2, aceAl 1])
        = .ok (.DELETE_ENTRY_SUCCESS, aclOf [aceBob 2, aceAl 1]) ∧
      [aceBob 4, aceBob 2, aceAl 1].filter
          (fun e => decide (cstr e.user ≠ cstr "bob".toList)) = [aceAl 1] := by
  decide

/-! ## `addRight` then `deleteRight` (C2) -/

/-- C2 fails when the flag was already set: user `al` holds `R_OWN`; after
`addRight(R_OWN)` and `deleteRight(R_OWN)`, both successful, the rights are 0,
not the 8 they were. -/
theorem addRight_deleteRight_loses_held_flag :
    addRight R_OWN "al".toList (aclOf [aceAl 8]) = (.ADD_RIGHT_SUCCESS, aclOf [aceAl 8]) ∧
      deleteRight R_OWN "al".toList (aclOf [aceAl 8])
        = (.DELETE_RIGHT_SUCCESS, aclOf [aceAl 0]) ∧
      aclOf [aceAl 0] ≠ aclOf [aceAl 8] := by
  decide

/-- C2, amended: for a canonical flag `F`, any list and any username,
`addRight(F)` followed by `deleteRight(F)` leaves every entry as it was, except
that an entry of that user whose rights already contained a bit of `F` ends
with `rights AND NOT F`.  So an entry of that user whose rights `R` did not
contain `F` holds exactly `R` again, and entries of other users are
untouched. -/
theorem addRight_deleteRight_restores_unless_held (F : Int) (username : List Char)
    (acl : Option AccessControlList)
    (hF : F = R_OWN ∨ F = R_READ ∨ F = R_WRITE ∨ F = R_EXECUTE) :
    (deleteRight F username (addRight F username acl).2).2 =
      acl.map (fun l =>
        { filename := l.filename,
          aces := l.aces.map (fun e =>
            if cstr e.user = cstr username ∧ bitAnd e.rights F ≠ 0
            then { user := e.user, rights := bitAnd e.rights (bitNot F) } else e) }) := by
  cases acl with
  | none => rfl
  | some l =>
    by_cases hne : l.aces = []
    · cases l with
      | mk fn es =>
        simp only at hne
        subst hne
        rfl
    · rw [addRight_eq F username l hF hne]
      have hne2 : (l.aces.map (fun e => if cstr e.user = cstr username
          then ({ user := e.user, rights := bitOr e.rights F } : AccessControlEntry)
          else e)) ≠ [] := by
        simpa using hne
      rw [deleteRight_eq F username _ hF hne2]
      simp only [List.map_map, Option.map_some']
      congr 2
      apply List.map_congr_left
      intro e _
      by_cases hm : cstr e.user = cstr username
      · by_cases hb : bitAnd e.rights F = 0
        · have hR := (bitAnd_bitNot_eq_self_iff e.rights F).2 hb
          simp [hm, hb, bitAnd_bitOr_bitNot, hR]
        · simp [hm, hb, bitAnd_bitOr_bitNot]
      · simp [hm]

theorem addRight_deleteRight_restores_unless_held_witness :
    (R_READ = R_OWN ∨ R_READ = R_READ ∨ R_READ = R_WRITE ∨ R_READ = R_EXECUTE) ∧
      (deleteRight R_READ "al".toList
        (addRight R_READ "al".toList (aclOf [aceAl 9, aceBob 4, aceAl 12])).2).2
        = aclOf [aceAl 9, aceBob 4, aceAl 8] :=
  ⟨by decide,
    (addRight_deleteRight_restores_unless_held R_READ "al".toList
      (aclOf [aceAl 9, aceBob 4, aceAl 12]) (by decide)).trans (by decide)⟩

/-! ## `deleteEntry`: abort on a match in the last entry (C3) -/

/-- C3, evaluated where it fails: when the only entry, or the last entry, is
the one to delete, `*ptr` is `NULL` after the unlinking and the loop's
`ptr = &((*ptr)->next)` goes through that null pointer: the call does not
return a status code. -/
theorem deleteEntry_null_dereference_on_last_match :
    deleteEntry "bob".toList (aclOf [aceBob 4]) = .error .nullDereference ∧
      deleteEntry "bob".toList (aclOf [aceAl 1, aceBob 4]) = .error .nullDereference := by
  decide

/-! ## `addRight` and `deleteRight` on a list with entries (C4, C5) -/

/-- C4: for a canonical flag and a list with at least one entry, `addRight`
replaces the rights of every entry whose user equals `username` by
`rights OR right` and leaves every other entry as it is, so the number, order
and users of the entries are unchanged; it returns `ADD_RIGHT_SUCCESS` when an
entry matched and `USER_NOT_FOUND` otherwise. -/
theorem addRight_updates_every_match (right : Int) (username : List Char)
    (l : AccessControlList)
    (hF : right = R_OWN ∨ right = R_READ ∨ right = R_WRITE ∨ right = R_EXECUTE)
    (hne : l.aces ≠ []) :
    addRight right username (some l) =
        (if ∃ e ∈ l.aces, cstr e.user = cstr username
          then StatusCode.ADD_RIGHT_SUCCESS else StatusCode.USER_NOT_FOUND,
         some { filename := l.filename,
                aces := l.aces.map (fun e => if cstr e.user = cstr username
                  then { user := e.user, rights := bitOr e.rights right } else e) }) ∧
      (l.aces.map (fun e => if cstr e.user = cstr username
          then { user := e.user, rights := bitOr e.rights right } else e)).length = l.aces.length ∧
      (l.aces.map (fun e => if cstr e.user = cstr username
          then { user := e.user, rights := bitOr e.rights right } else e)).map (fun e => e.user)
        = l.aces.map (fun e => e.user) := by
  refine ⟨addRight_eq right username l hF hne, by simp, ?_⟩
  rw [List.map_map]
  apply List.map_congr_left
  intro e _
  by_cases hm : cstr e.user = cstr username <;> simp [hm]

theorem addRight_updates_every_match_witness :
    (R_WRITE = R_OWN ∨ R_WRITE = R_READ ∨ R_WRITE = R_WRITE ∨ R_WRITE = R_EXECUTE) ∧
      [aceAl 4, aceBob 4, aceAl 9] ≠ [] ∧
      addRight R_WRITE "al".toList (aclOf [aceAl 4, aceBob 4, aceAl 9]) =
        (StatusCode.ADD_RIGHT_SUCCESS, aclOf [aceAl 6, aceBob 4, aceAl 11]) :=
  ⟨by decide, by decide,
    (addRight_updates_every_match R_WRITE "al".toList
      { filename := ['f', NUL, NUL, NUL], aces := [aceAl 4, aceBob 4, aceAl 9] }
      (by decide) (by decide)).1.trans (by decide)⟩

/-- C5: for a canonical flag and a list with at least one entry, `deleteRight`
replaces the rights of every entry whose user equals `username` by
`rights AND NOT right` and leaves every other entry as it is, so the number,
order and users of the entries are unchanged; it returns
`DELETE_RIGHT_SUCCESS` when an entry matched and `USER_NOT_FOUND` otherwise. -/
theorem deleteRight_updates_every_match (right : Int) (username : List Char)
    (l : AccessControlList)
    (hF : right = R_OWN ∨ right = R_READ ∨ right = R_WRITE ∨ right = R_EXECUTE)
    (hne : l.aces ≠ []) :
    deleteRight right username (some l) =
        (if ∃ e ∈ l.aces, cstr e.user = cstr username
          then StatusCode.DELETE_RIGHT_SUCCESS else StatusCode.USER_NOT_FOUND,
         some { filename := l.filename,
                aces := l.aces.map (fun e => if cstr e.user = cstr username
                  then { user := e.user, rights := bitAnd e.rights (bitNot right) } else e) }) ∧
      (l.aces.map (fun e => if cstr e.user = cstr username
          then { user := e.user, rights := bitAnd e.rights (bitNot right) } else e)).length = l.aces.length ∧
      (l.aces.map (fun e => if cstr e.user = cstr username
          then { user := e.user, rights := bitAnd e.rights (bitNot right) } else e)).map (fun e => e.user)
        = l.aces.map (fun e => e.user) := by
  refine ⟨deleteRight_eq right username l hF hne, by simp, ?_⟩
  rw [List.map_map]
  apply List.map_congr_left
  intro e _
  by_cases hm : cstr e.user = cstr username <;> simp [hm]

theorem deleteRight_updates_every_match_witness :
    (R_READ = R_OWN ∨ R_READ = R_READ ∨ R_READ = R_WRITE ∨ R_READ = R_EXECUTE) ∧
      [aceBob 12, aceAl 7, aceBob 3] ≠ [] ∧
      deleteRight R_READ "bob".toList (aclOf [aceBob 12, aceAl 7, aceBob 3]) =
        (StatusCode.DELETE_RIGHT_SUCCESS, aclOf [aceBob 8, aceAl 7, aceBob 3]) :=
  ⟨by decide, by decide,
    (deleteRight_updates_every_match R_READ "bob".toList
      { filename := ['f', NUL, NUL, NUL], aces := [aceBob 12, aceAl 7, aceBob 3] }
      (by decide) (by decide)).1.trans (by decide)⟩

/-! ## Rights that are not a flag (C6, C7) -/

/-- C6: when `right` is none of the four flags, `addRight` and `deleteRight`
return a status other than their success code and hand back the list as it
was, whatever the list (null, without entries or with entries) and the
username. -/
theorem invalid_right_fails_without_change (right : Int) (username : List Char)
    (acl : Option AccessControlList)
    (hF : ¬ (right = R_OWN ∨ right = R_READ ∨ right = R_WRITE ∨ right = R_EXECUTE)) :
    (addRight right username acl).1 ≠ StatusCode.ADD_RIGHT_SUCCESS ∧
      (addRight right username acl).2 = acl ∧
      (deleteRight right username acl).1 ≠ StatusCode.DELETE_RIGHT_SUCCESS ∧
      (deleteRight right username acl).2 = acl := by
  have hinv := invalid_of_not_canonical hF
  cases acl with
  | none => simp [addRight, deleteRight]
  | some l =>
    by_cases hne : l.aces = []
    · simp [addRight, deleteRight, hne]
    · simp [addRight, deleteRight, hne, hinv]

theorem invalid_right_fails_without_change_witness :
    ¬ ((-1 : Int) = R_OWN ∨ (-1 : Int) = R_READ ∨ (-1 : Int) = R_WRITE ∨ (-1 : Int) = R_EXECUTE) ∧
      (addRight (-1) "al".toList (aclOf [aceAl 4, aceBob 1])).1 ≠ StatusCode.ADD_RIGHT_SUCCESS ∧
      (addRight (-1) "al".toList (aclOf [aceAl 4, aceBob 1])).2 = aclOf [aceAl 4, aceBob 1] ∧
      (deleteRight (-1) "al".toList (aclOf [aceAl 4, aceBob 1])).1
        ≠ StatusCode.DELETE_RIGHT_SUCCESS ∧
      (deleteRight (-1) "al".toList (aclOf [aceAl 4, aceBob 1])).2 = aclOf [aceAl 4, aceBob 1] :=
  ⟨by decide,
    invalid_right_fails_without_change (-1) "al".toList (aclOf [aceAl 4, aceBob 1]) (by decide)⟩

/-- C7 fails on a null list and on a list without entries: the emptiness guard
runs before the flag is looked at, so the value 3, which is no flag, gets
`LIST_EMPTY_ERROR` from both functions, not their failure code. -/
theorem invalid_right_on_empty_list_is_list_empty_error :
    (addRight 3 "al".toList none).1 = StatusCode.LIST_EMPTY_ERROR ∧
      (deleteRight 3 "al".toList none).1 = StatusCode.LIST_EMPTY_ERROR ∧
      (addRight 3 "al".toList (aclOf [])).1 = StatusCode.LIST_EMPTY_ERROR ∧
      (deleteRight 3 "al".toList (aclOf [])).1 = StatusCode.LIST_EMPTY_ERROR ∧
      StatusCode.LIST_EMPTY_ERROR ≠ StatusCode.ADD_RIGHT_FAILURE ∧
      StatusCode.LIST_EMPTY_ERROR ≠ StatusCode.DELETE_RIGHT_FAILURE ∧
      ¬ ((3 : Int) = R_OWN ∨ (3 : Int) = R_READ ∨ (3 : Int) = R_WRITE ∨ (3 : Int) = R_EXECUTE) := by
  decide

/-- C7, amended: when `right` is none of the four flags and the list has at
least one entry, `addRight` returns `ADD_RIGHT_FAILURE` and `deleteRight`
returns `DELETE_RIGHT_FAILURE`, whatever the username. -/
theorem invalid_right_failure_code (right : Int) (username : List Char)
    (l : AccessControlList)
    (hF : ¬ (right = R_OWN ∨ right = R_READ ∨ right = R_WRITE ∨ right = R_EXECUTE))
    (hne : l.aces ≠ []) :
    (addRight right username (some l)).1 = StatusCode.ADD_RIGHT_FAILURE ∧
      (deleteRight right username (some l)).1 = StatusCode.DELETE_RIGHT_FAILURE := by
  have hinv := invalid_of_not_canonical hF
  simp [addRight, deleteRight, hne, hinv]

theorem invalid_right_failure_code_witness :
    ¬ ((16 : Int) = R_OWN ∨ (16 : Int) = R_READ ∨ (16 : Int) = R_WRITE ∨ (16 : Int) = R_EXECUTE) ∧
      [aceBob 2] ≠ [] ∧
      (addRight 16 "bob".toList (aclOf [aceBob 2])).1 = StatusCode.ADD_RIGHT_FAILURE ∧
      (deleteRight 16 "bob".toList (aclOf [aceBob 2])).1 = StatusCode.DELETE_RIGHT_FAILURE :=
  ⟨by decide, by decide,
    invalid_right_failure_code 16 "bob".toList
      { filename := ['f', NUL, NUL, NUL], aces := [aceBob 2] } (by decide) (by decide)⟩

/-! ## The emptiness guard (C8) -/

/-- C8: on a list that is null or has no entries, `addRight`, `deleteRight` and
`deleteEntry` return `LIST_EMPTY_ERROR` and hand back the list as it was, for
every username and every right value; on a list with at least one entry none
of the three returns `LIST_EMPTY_ERROR`. -/
theorem list_empty_error_exactly_on_empty_list (right : Int) (username : List Char)
    (acl : Option AccessControlList) :
    if listEmpty acl = true then
      addRight right username acl = (StatusCode.LIST_EMPTY_ERROR, acl) ∧
        deleteRight right username acl = (StatusCode.LIST_EMPTY_ERROR, acl) ∧
        deleteEntry username acl = .ok (StatusCode.LIST_EMPTY_ERROR, acl)
    else
      (addRight right username acl).1 ≠ StatusCode.LIST_EMPTY_ERROR ∧
        (deleteRight right username acl).1 ≠ StatusCode.LIST_EMPTY_ERROR ∧
        ∀ acl2, deleteEntry username acl ≠ .ok (StatusCode.LIST_EMPTY_ERROR, acl2) := by
  cases acl with
  | none => simp [listEmpty, addRight, deleteRight, deleteEntry]
  | some l =>
    by_cases hne : l.aces = []
    · simp [listEmpty, addRight, deleteRight, deleteEntry, hne]
    · have hle : ¬ (listEmpty (some l) = true) := by simpa [listEmpty] using hne
      rw [if_neg hle]
      refine ⟨?_, ?_, ?_⟩
      · simp only [addRight, hne, if_false]
        split
        · simp
        · split <;> simp
      · simp only [deleteRight, hne, if_false]
        split
        · simp
        · split <;> simp
      · intro acl2
        simp only [deleteEntry, hne, if_false]
        split
        · simp
        · split <;> simp

/-! ## `deleteEntry` without a match (C9) -/

/-- C9 fails on an initialized list without entries: no entry's user equals the
username, yet the emptiness guard makes `deleteEntry` return
`LIST_EMPTY_ERROR`, not `USER_NOT_FOUND`. -/
theorem deleteEntry_without_entries_is_list_empty_error :
    (∀ e ∈ ([] : List AccessControlEntry), cstr e.user ≠ cstr "bob".toList) ∧
      deleteEntry "bob".toList (aclOf []) = .ok (StatusCode.LIST_EMPTY_ERROR, aclOf []) ∧
      StatusCode.LIST_EMPTY_ERROR ≠ StatusCode.USER_NOT_FOUND := by
  decide

/-- C9, amended: on a list with at least one entry in which no entry's user
equals `username`, `deleteEntry` returns `USER_NOT_FOUND` and leaves the list
as it was, so the entry count before and after is equal. -/
theorem deleteEntry_no_match_unchanged (username : List Char) (l : AccessControlList)
    (hne : l.aces ≠ []) (hno : ∀ e ∈ l.aces, cstr e.user ≠ cstr username) :
    deleteEntry username (some l) = .ok (StatusCode.USER_NOT_FOUND, some l) := by
  simp [deleteEntry, hne, deleteEntryLoop_no_match username l.aces false hno]

theorem deleteEntry_no_match_unchanged_witness :
    [aceAl 4, aceAl 2, aceBob 1] ≠ [] ∧
      (∀ e ∈ [aceAl 4, aceAl 2, aceBob 1], cstr e.user ≠ cstr "eve".toList) ∧
      deleteEntry "eve".toList (aclOf [aceAl 4, aceAl 2, aceBob 1])
        = .ok (StatusCode.USER_NOT_FOUND, aclOf [aceAl 4, aceAl 2, aceBob 1]) :=
  ⟨by decide, by decide,
    deleteEntry_no_match_unchanged "eve".toList
      { filename := ['f', NUL, NUL, NUL], aces := [aceAl 4, aceAl 2, aceBob 1] }
      (by decide) (by decide)⟩

/-! ## `addEntry` (C10) -/

/-- C10: on a non-null list, `addEntry` keeps the filename and puts one new
entry in front of the entries that were there; the new entry holds `rights`
verbatim and a user buffer of `MAX_LENGTH` bytes whose string is `newUser` cut
to at most `MAX_LENGTH - 1` characters.  Adding `u` and then `v` therefore
gives `v` first and `u` second, also when both are the same user. -/
theorem addEntry_prepends (MAX_LENGTH : Nat) (u v : List Char) (r r2 : Int)
    (l : AccessControlList) (hM : 0 < MAX_LENGTH) :
    (addEntry MAX_LENGTH u r (some l)).2 =
        some { filename := l.filename,
               aces := { user := (strncpy u MAX_LENGTH).set (MAX_LENGTH - 1) NUL,
                         rights := r } :: l.aces } ∧
      cstr ((strncpy u MAX_LENGTH).set (MAX_LENGTH - 1) NUL) = (cstr u).take (MAX_LENGTH - 1) ∧
      ((strncpy u MAX_LENGTH).set (MAX_LENGTH - 1) NUL).length = MAX_LENGTH ∧
      (addEntry MAX_LENGTH v r2 (addEntry MAX_LENGTH u r (some l)).2).2 =
        some { filename := l.filename,
               aces := { user := (strncpy v MAX_LENGTH).set (MAX_LENGTH - 1) NUL,
                         rights := r2 } ::
                       { user := (strncpy u MAX_LENGTH).set (MAX_LENGTH - 1) NUL,
                         rights := r } :: l.aces } := by
  have hbuf := buffer_takeWhile (cstr u) (cstr_no_NUL u) MAX_LENGTH hM
  have h1 : (addEntry MAX_LENGTH u r (some l)).2 =
      some { filename := l.filename,
             aces := { user := (strncpy u MAX_LENGTH).set (MAX_LENGTH - 1) NUL,
                       rights := r } :: l.aces } := by
    cases l with
    | mk fn es => cases es <;> rfl
  refine ⟨h1, hbuf.1, hbuf.2, ?_⟩
  rw [h1]
  rfl

theorem addEntry_prepends_witness :
    0 < 4 ∧
      (addEntry 4 "bob".toList 16 (addEntry 4 "alice".toList (-5) (aclOf [aceAl 1])).2).2
        = aclOf [aceBob 16, { user := ['a', 'l', 'i', NUL], rights := -5 }, aceAl 1] ∧
      cstr ((strncpy "alice".toList 4).set (4 - 1) NUL) = "ali".toList :=
  ⟨by decide,
    (addEntry_prepends 4 "alice".toList "bob".toList (-5) 16
      { filename := ['f', NUL, NUL, NUL], aces := [aceAl 1] } (by decide)).2.2.2.trans
      (by decide),
    (addEntry_prepends 4 "alice".toList "bob".toList (-5) 16
      { filename := ['f', NUL, NUL, NUL], aces := [aceAl 1] } (by decide)).2.1.trans
      (by decide)⟩

/-! ## Facts about buffers and printing -/

/-- A string shorter than the buffer is copied whole and followed by `NUL`. -/
theorem strncpy_short (src : List Char) (n : Nat) (h : (cstr src).length < n) :
    NUL ∈ strncpy src n ∧ cstr (strncpy src n) = cstr src := by
  obtain ⟨k, hk⟩ : ∃ k, n - (cstr src).length = k + 1 := ⟨n - (cstr src).length - 1, by omega⟩
  have hs : strncpy src n = cstr src ++ NUL :: List.replicate k NUL := by
    unfold strncpy
    rw [List.take_of_length_le (by omega), hk, List.replicate_succ]
  rw [hs]
  constructor
  · simp
  · show List.takeWhile (fun c => c != NUL) (cstr src ++ NUL :: List.replicate k NUL) = cstr src
    rw [List.takeWhile_append_of_pos (cstr_no_NUL src), List.takeWhile_cons_of_neg (by simp),
      List.append_nil]

/-- The user buffer `addEntry` fills always holds a terminator, and its string is
the name cut to `MAX_LENGTH - 1` characters. -/
theorem userBuffer_spec (u : List Char) (M : Nat) (hM : 0 < M) :
    NUL ∈ (strncpy u M).set (M - 1) NUL ∧
      cstr ((strncpy u M).set (M - 1) NUL) = (cstr u).take (M - 1) := by
  have hb := buffer_takeWhile (cstr u) (cstr_no_NUL u) M hM
  refine ⟨?_, hb.1⟩
  have hlen : M - 1 < ((strncpy u M).set (M - 1) NUL).length := by
    have h2 : ((strncpy u M).set (M - 1) NUL).length = M := hb.2
    omega
  have hget : ((strncpy u M).set (M - 1) NUL)[M - 1] = NUL := by
    simp
  have hmem := List.getElem_mem hlen
  rw [hget] at hmem
  exact hmem

theorem printEntries_eq (es : List AccessControlEntry) (hus : ∀ e ∈ es, NUL ∈ e.user) :
    printEntries es = some ((es.map (fun e => ", ".toList ++ cstr e.user ++ " (".toList
      ++ printRights e.rights NUMBER_OF_RIGHTS ++ ")".toList)).flatten) := by
  induction es with
  | nil => rfl
  | cons e es ih =>
    have he : NUL ∈ e.user := hus e (List.mem_cons_self e es)
    have ih2 := ih (fun x hx => hus x (List.mem_cons_of_mem e hx))
    simp only [printEntries, readString, he, if_true, ih2, List.map_cons, List.flatten_cons,
      List.append_assoc]

/-- The text `printACL` writes for a list whose buffers hold strings. -/
theorem printACL_eq (l : AccessControlList) (hfn : NUL ∈ l.filename)
    (hus : ∀ e ∈ l.aces, NUL ∈ e.user) :
    printACL (some l) =
      some ("printList: (File: ".toList ++ cstr l.filename ++ ". ".toList
        ++ (if l.aces = [] then "  No entries.".toList
            else (l.aces.map (fun e => ", ".toList ++ cstr e.user ++ " (".toList
              ++ printRights e.rights NUMBER_OF_RIGHTS ++ ")".toList)).flatten)
        ++ ") \n".toList) := by
  by_cases hne : l.aces = []
  · simp only [printACL, readString, hfn, if_true, hne, ne_eq, not_true_eq_false, if_false]
    simp
  · simp only [printACL, readString, hfn, if_true, hne, ne_eq, not_false_eq_true, if_false,
      printEntries_eq l.aces hus]
    simp

/-- The text of `printACL` where its `%s` arguments are strings: for a non-null
list whose filename and user buffers hold a terminator, `printACL` writes `printList: (File: <filename>. `, then `  No entries.` when
there is no entry and otherwise `, <user> (<rights-string>)` for each entry from
head to tail, then `) ` and a newline.  With room for the names in the buffers,
`initializeACL("file1")` and `addEntry("alice", OWN|READ)` give
`printList: (File: file1. , alice (or)) ` and a further
`deleteRight(READ, "alice")` gives `printList: (File: file1. , alice (o)) `. -/
theorem printACL_text (MAX_LENGTH : Nat) (l : AccessControlList) (hM : 5 < MAX_LENGTH)
    (hfn : NUL ∈ l.filename) (hus : ∀ e ∈ l.aces, NUL ∈ e.user) :
    printACL (some l) =
        some ("printList: (File: ".toList ++ cstr l.filename ++ ". ".toList
          ++ (if l.aces = [] then "  No entries.".toList
              else (l.aces.map (fun e => ", ".toList ++ cstr e.user ++ " (".toList
                ++ printRights e.rights NUMBER_OF_RIGHTS ++ ")".toList)).flatten)
          ++ ") \n".toList) ∧
      printACL (addEntry MAX_LENGTH "alice".toList (bitOr R_OWN R_READ)
          (initializeACL MAX_LENGTH "file1".toList (some none)).2.join).2
        = some "printList: (File: file1. , alice (or)) \n".toList ∧
      printACL (deleteRight R_READ "alice".toList
          (addEntry MAX_LENGTH "alice".toList (bitOr R_OWN R_READ)
            (initializeACL MAX_LENGTH "file1".toList (some none)).2.join).2).2
        = some "printList: (File: file1. , alice (o)) \n".toList := by
  have hfile : (cstr "file1".toList).length < MAX_LENGTH := by
    have h5 : (cstr "file1".toList).length = 5 := by decide
    omega
  have hF := strncpy_short "file1".toList MAX_LENGTH hfile
  have hF2 : cstr (strncpy "file1".toList MAX_LENGTH) = "file1".toList :=
    hF.2.trans (by decide)
  have hA := userBuffer_spec "alice".toList MAX_LENGTH (by omega)
  have hA2 : cstr ((strncpy "alice".toList MAX_LENGTH).set (MAX_LENGTH - 1) NUL)
      = "alice".toList := by
    rw [hA.2, List.take_of_length_le]
    · decide
    · have h5 : (cstr "alice".toList).length = 5 := by decide
      omega
  have hadd : (addEntry MAX_LENGTH "alice".toList (bitOr R_OWN R_READ)
      (initializeACL MAX_LENGTH "file1".toList (some none)).2.join).2 =
      some { filename := strncpy "file1".toList MAX_LENGTH,
             aces := [{ user := (strncpy "alice".toList MAX_LENGTH).set (MAX_LENGTH - 1) NUL,
                        rights := 12 }] } := rfl
  have hdel : (deleteRight R_READ "alice".toList
      (some { filename := strncpy "file1".toList MAX_LENGTH,
              aces := [{ user := (strncpy "alice".toList MAX_LENGTH).set (MAX_LENGTH - 1) NUL,
                         rights := 12 }] })).2 =
      some { filename := strncpy "file1".toList MAX_LENGTH,
             aces := [{ user := (strncpy "alice".toList MAX_LENGTH).set (MAX_LENGTH - 1) NUL,
                        rights := 8 }] } := by
    rw [deleteRight_eq R_READ "alice".toList _ (by decide) (by simp)]
    have hc : cstr "alice".toList = "alice".toList := by decide
    simp only [List.map_cons, List.map_nil, hA2, hc, if_true]
    rfl
  refine ⟨printACL_eq l hfn hus, ?_, ?_⟩
  · rw [hadd, printACL_eq _ hF.1 (by simpa using hA.1)]
    simp only [hF2, hA2, List.map_cons, List.map_nil, List.flatten_cons, List.flatten_nil,
      List.cons_ne_nil, if_false]
    decide
  · rw [hadd, hdel, printACL_eq _ hF.1 (by simpa using hA.1)]
    simp only [hF2, hA2, List.map_cons, List.map_nil, List.flatten_cons, List.flatten_nil,
      List.cons_ne_nil, if_false]
    decide

theorem printACL_text_witness :
    5 < 8 ∧ NUL ∈ ['f', NUL, NUL, NUL] ∧
      (∀ e ∈ [aceBob 5, aceAl 16], NUL ∈ e.user) ∧
      printACL (aclOf [aceBob 5, aceAl 16])
        = some "printList: (File: f. , bob (rx), al ()) \n".toList ∧
      printACL (addEntry 8 "alice".toList (bitOr R_OWN R_READ)
          (initializeACL 8 "file1".toList (some none)).2.join).2
        = some "printList: (File: file1. , alice (or)) \n".toList :=
  ⟨by decide, by decide, by decide,
    (printACL_text 8 { filename := ['f', NUL, NUL, NUL], aces := [aceBob 5, aceAl 16] }
      (by decide) (by decide) (by decide)).1.trans (by decide),
    (printACL_text 8 { filename := ['f', NUL, NUL, NUL], aces := [aceBob 5, aceAl 16] }
      (by decide) (by decide) (by decide)).2.1⟩

/-- A name of `n` letters `a` fills a buffer of `n` bytes: `strncpy` copies the
letters and writes no terminator. -/
theorem strncpy_fills_buffer (n : Nat) :
    strncpy (List.replicate n 'a') n = List.replicate n 'a' ∧
      NUL ∉ List.replicate n 'a' := by
  have hc : cstr (List.replicate n 'a') = List.replicate n 'a' := by
    unfold cstr
    rw [List.takeWhile_eq_self_iff]
    intro x hx
    rw [List.eq_of_mem_replicate hx]
    decide
  constructor
  · unfold strncpy
    rw [hc]
    simp
  · intro hmem
    have h := List.eq_of_mem_replicate hmem
    revert h
    decide

/-- C11, evaluated where it fails: for every buffer size, `initializeACL` with a
filename of that many letters succeeds and leaves a list whose filename buffer
has no terminator; after `addEntry("alice", OWN|READ)` the `%s` of `printACL`
reads past that buffer, so what is written is not `printList: (File: ` followed
by the filename and the entries.  With a buffer of five bytes this is the
scenario of `file1` and `alice` itself, and with four bytes the stored
filename is the four bytes `file`. -/
theorem printACL_reads_past_unterminated_filename (MAX_LENGTH : Nat) :
    (initializeACL MAX_LENGTH (List.replicate MAX_LENGTH 'a') (some none)).1
        = StatusCode.INITIALIZE_SUCCESS ∧
      (addEntry MAX_LENGTH "alice".toList (bitOr R_OWN R_READ)
          (initializeACL MAX_LENGTH (List.replicate MAX_LENGTH 'a') (some none)).2.join).2
        = some { filename := List.replicate MAX_LENGTH 'a',
                 aces := [{ user := (strncpy "alice".toList MAX_LENGTH).set (MAX_LENGTH - 1) NUL,
                            rights := 12 }] } ∧
      printACL (addEntry MAX_LENGTH "alice".toList (bitOr R_OWN R_READ)
          (initializeACL MAX_LENGTH (List.replicate MAX_LENGTH 'a') (some none)).2.join).2
        = none ∧
      printACL (addEntry 5 "alice".toList (bitOr R_OWN R_READ)
          (initializeACL 5 "file1".toList (some none)).2.join).2 = none ∧
      (addEntry 4 "alice".toList (bitOr R_OWN R_READ)
          (initializeACL 4 "file1".toList (some none)).2.join).2
        = some { filename := ['f', 'i', 'l', 'e'],
                 aces := [{ user := ['a', 'l', 'i', NUL], rights := 12 }] } ∧
      printACL (addEntry 4 "alice".toList (bitOr R_OWN R_READ)
          (initializeACL 4 "file1".toList (some none)).2.join).2 = none := by
  have hfill := strncpy_fills_buffer MAX_LENGTH
  have hadd : (addEntry MAX_LENGTH "alice".toList (bitOr R_OWN R_READ)
      (initializeACL MAX_LENGTH (List.replicate MAX_LENGTH 'a') (some none)).2.join).2
      = some { filename := List.replicate MAX_LENGTH 'a',
               aces := [{ user := (strncpy "alice".toList MAX_LENGTH).set (MAX_LENGTH - 1) NUL,
                          rights := 12 }] } := by
    have h0 : (addEntry MAX_LENGTH "alice".toList (bitOr R_OWN R_READ)
        (initializeACL MAX_LENGTH (List.replicate MAX_LENGTH 'a') (some none)).2.join).2
        = some { filename := strncpy (List.replicate MAX_LENGTH 'a') MAX_LENGTH,
                 aces := [{ user := (strncpy "alice".toList MAX_LENGTH).set (MAX_LENGTH - 1) NUL,
                            rights := 12 }] } := rfl
    rw [h0, hfill.1]
  refine ⟨rfl, hadd, ?_, by decide, by decide, by decide⟩
  rw [hadd]
  simp only [printACL, readString, hfill.2, if_false]

/-- C13: for a null list `printACL` writes `printList: ( empty access control
list )` and a newline, and nothing else. -/
theorem printACL_null :
    printACL none = some "printList: ( empty access control list )\n".toList := by
  decide

/-! ## `initializeACL` (C14, C15) -/

/-- C14: with a handle that already references a list `initializeACL` returns
`INITIALIZE_FAILURE` and the handle still references that list, filename and
entries unchanged; with a null handle it returns `INITIALIZE_FAILURE` too; it
returns `INITIALIZE_SUCCESS` exactly when the handle is valid and empty, and
the list it then binds to the handle has no entries. -/
theorem initializeACL_status (MAX_LENGTH : Nat) (filename : List Char)
    (aclPtr : Option (Option AccessControlList)) :
    (∀ l, initializeACL MAX_LENGTH filename (some (some l))
        = (StatusCode.INITIALIZE_FAILURE, some (some l))) ∧
      initializeACL MAX_LENGTH filename none = (StatusCode.INITIALIZE_FAILURE, none) ∧
      ((initializeACL MAX_LENGTH filename aclPtr).1 = StatusCode.INITIALIZE_SUCCESS
        ↔ aclPtr = some none) ∧
      ((initializeACL MAX_LENGTH filename aclPtr).1 = StatusCode.INITIALIZE_FAILURE
        ↔ aclPtr ≠ some none) ∧
      (∃ l, (initializeACL MAX_LENGTH filename (some none)).2 = some (some l) ∧ l.aces = []) := by
  refine ⟨fun l => rfl, rfl, ?_, ?_, ⟨_, rfl, rfl⟩⟩
  · cases aclPtr with
    | none => simp [initializeACL]
    | some a => cases a <;> simp [initializeACL]
  · cases aclPtr with
    | none => simp [initializeACL]
    | some a => cases a <;> simp [initializeACL]

/-- C15, evaluated where it fails: for every buffer size, a filename of that
many characters `a` is copied without a terminator: the call succeeds and the
filename buffer holds no `NUL`, so the stored filename is not a string inside
its buffer and `printACL` reads past it.  With four bytes, `file1` is stored as
the four bytes `file`. -/
theorem initializeACL_long_filename_unterminated (MAX_LENGTH : Nat) :
    initializeACL MAX_LENGTH (List.replicate MAX_LENGTH 'a') (some none)
        = (StatusCode.INITIALIZE_SUCCESS,
            some (some { filename := List.replicate MAX_LENGTH 'a', aces := [] })) ∧
      NUL ∉ List.replicate MAX_LENGTH 'a' ∧
      printACL (initializeACL MAX_LENGTH (List.replicate MAX_LENGTH 'a') (some none)).2.join
        = none ∧
      initializeACL 4 "file1".toList (some none)
        = (StatusCode.INITIALIZE_SUCCESS,
            some (some { filename := ['f', 'i', 'l', 'e'], aces := [] })) := by
  have hc : cstr (List.replicate MAX_LENGTH 'a') = List.replicate MAX_LENGTH 'a' := by
    unfold cstr
    rw [List.takeWhile_eq_self_iff]
    intro x hx
    rw [List.eq_of_mem_replicate hx]
    decide
  have hs : strncpy (List.replicate MAX_LENGTH 'a') MAX_LENGTH = List.replicate MAX_LENGTH 'a' := by
    unfold strncpy
    rw [hc]
    simp
  have hnot : NUL ∉ List.replicate MAX_LENGTH 'a' := by
    intro hmem
    have h := List.eq_of_mem_replicate hmem
    revert h
    decide
  refine ⟨?_, hnot, ?_, by decide⟩
  · simp only [initializeACL, hs]
  · simp only [initializeACL, hs, Option.join, Option.bind, id, printACL, readString, hnot,
      if_false]

/-! ## `freeACL` (C17) -/

theorem freeACLLoop_eq (es freed : List AccessControlEntry) :
    freeACLLoop es freed = freed ++ es := by
  induction es generalizing freed with
  | nil => simp [freeACLLoop]
  | cons e es ih => simp [freeACLLoop, ih]

/-- C17: `freeACL` returns `FREE_ACL_SUCCESS` for every argument; for a null
list it frees nothing; for a non-null list its loop ends after passing each
entry of the chain to `free` once, in order, and the list head is freed
after them. -/
theorem freeACL_always_succeeds (acl : Option AccessControlList) :
    (freeACL acl).1 = StatusCode.FREE_ACL_SUCCESS ∧
      freeACL none = (StatusCode.FREE_ACL_SUCCESS, [], false) ∧
      (∀ l, freeACL (some l) = (StatusCode.FREE_ACL_SUCCESS, l.aces, true)) ∧
      (∀ l, (freeACL (some l)).2.1.length = l.aces.length) := by
  refine ⟨?_, rfl, ?_, ?_⟩
  · cases acl <;> rfl
  · intro l
    simp [freeACL, freeACLLoop_eq]
  · intro l
    simp [freeACL, freeACLLoop_eq]

/-! ## `deleteEntry` when no match is last or follows a match (C18) -/

theorem deleteEntryLoop_isolated (username : List Char) :
    ∀ (n : Nat) (es : List AccessControlEntry), es.length ≤ n → ∀ found : Bool,
      (∀ e, es.getLast? = some e → cstr e.user ≠ cstr username) →
      List.Chain' (fun a b : AccessControlEntry =>
        ¬ (cstr a.user = cstr username ∧ cstr b.user = cstr username)) es →
      deleteEntryLoop username es found =
        .ok (es.filter (fun e => decide (cstr e.user ≠ cstr username)),
             found || es.any (fun e => decide (cstr e.user = cstr username))) := by
  intro n
  induction n with
  | zero =>
    intro es hlen found _ _
    have hnil : es = [] := List.length_eq_zero.mp (by omega)
    subst hnil
    simp [deleteEntryLoop]
  | succ n ih =>
    intro es hlen found hlast hadj
    match es, hlen, hlast, hadj with
    | [], _, _, _ => simp [deleteEntryLoop]
    | [e], _, hlast, _ =>
      have he : cstr e.user ≠ cstr username := hlast e rfl
      simp [deleteEntryLoop, strcmp_eq_zero_iff, he]
    | e :: e2 :: rest, hlen, hlast, hadj =>
      have hadj2 := List.chain'_cons.mp hadj
      by_cases he : cstr e.user = cstr username
      · have he2 : cstr e2.user ≠ cstr username := fun h => hadj2.1 ⟨he, h⟩
        have hlen2 : rest.length ≤ n := by
          simp only [List.length_cons] at hlen
          omega
        have hlast2 : ∀ x, rest.getLast? = some x → cstr x.user ≠ cstr username := by
          intro x hx
          cases rest with
          | nil => simp at hx
          | cons a as =>
            apply hlast x
            rw [List.getLast?_cons_cons, List.getLast?_cons_cons]
            exact hx
        have hadj3 := hadj2.2.tail
        simp only [List.tail_cons] at hadj3
        have hrec := ih rest hlen2 true hlast2 hadj3
        simp [deleteEntryLoop, strcmp_eq_zero_iff, he, he2, hrec]
      · have hlen2 : (e2 :: rest).length ≤ n := by
          simp only [List.length_cons] at hlen ⊢
          omega
        have hlast2 : ∀ x, (e2 :: rest).getLast? = some x → cstr x.user ≠ cstr username := by
          intro x hx
          apply hlast x
          rw [List.getLast?_cons_cons]
          exact hx
        have hrec := ih (e2 :: rest) hlen2 found hlast2 hadj2.2
        simp [deleteEntryLoop, strcmp_eq_zero_iff, he, hrec]

/-- C18: on a list with at least one entry in which the last entry does not
match `username` and no two adjacent entries both match it, `deleteEntry`
returns (it follows no null link), the entries left are the original ones
without the matching entries, in their original order, and the status is
`DELETE_ENTRY_SUCCESS` when an entry matched and `USER_NOT_FOUND` when none
did. -/
theorem deleteEntry_removes_isolated_matches (username : List Char) (l : AccessControlList)
    (hne : l.aces ≠ [])
    (hlast : ∀ e, l.aces.getLast? = some e → cstr e.user ≠ cstr username)
    (hadj : List.Chain' (fun a b : AccessControlEntry =>
      ¬ (cstr a.user = cstr username ∧ cstr b.user = cstr username)) l.aces) :
    deleteEntry username (some l) =
      .ok (if ∃ e ∈ l.aces, cstr e.user = cstr username
            then StatusCode.DELETE_ENTRY_SUCCESS else StatusCode.USER_NOT_FOUND,
           some { filename := l.filename,
                  aces := l.aces.filter (fun e => decide (cstr e.user ≠ cstr username)) }) := by
  have hloop := deleteEntryLoop_isolated username l.aces.length l.aces (le_refl _) false
    hlast hadj
  by_cases hm : ∃ e ∈ l.aces, cstr e.user = cstr username
  · have hany : l.aces.any (fun e => decide (cstr e.user = cstr username)) = true := by
      simpa using hm
    simp only [deleteEntry, hne, if_false, hloop, Bool.false_or, hany, Bool.not_true,
      Bool.false_eq_true, hm, if_true]
  · have hany : l.aces.any (fun e => decide (cstr e.user = cstr username)) = false := by
      rw [Bool.eq_false_iff]
      simpa using hm
    simp only [deleteEntry, hne, if_false, hloop, Bool.false_or, hany, Bool.not_false,
      hm, if_true]

theorem deleteEntry_removes_isolated_matches_witness :
    [aceBob 4, aceAl 1, aceBob 2, aceAl 8] ≠ [] ∧
      (∀ e, [aceBob 4, aceAl 1, aceBob 2, aceAl 8].getLast? = some e →
        cstr e.user ≠ cstr "bob".toList) ∧
      List.Chain' (fun a b : AccessControlEntry =>
        ¬ (cstr a.user = cstr "bob".toList ∧ cstr b.user = cstr "bob".toList))
        [aceBob 4, aceAl 1, aceBob 2, aceAl 8] ∧
      deleteEntry "bob".toList (aclOf [aceBob 4, aceAl 1, aceBob 2, aceAl 8])
        = .ok (StatusCode.DELETE_ENTRY_SUCCESS, aclOf [aceAl 1, aceAl 8]) :=
  ⟨by decide, by simp [aceAl, cstr, NUL],
    by simp only [List.chain'_cons, List.chain'_singleton, and_true]; decide,
    (deleteEntry_removes_isolated_matches "bob".toList
      { filename := ['f', NUL, NUL, NUL], aces := [aceBob 4, aceAl 1, aceBob 2, aceAl 8] }
      (by decide) (by simp [aceAl, cstr, NUL])
      (by simp only [List.chain'_cons, List.chain'_singleton, and_true]; decide)).trans
      (by decide)⟩

/-! ## `addRight` then `deleteRight`, exactly (C19) -/

/-- C19: for a canonical flag `F` and a list with at least one entry, after
`addRight(F)` and then `deleteRight(F)` every entry of that user with prior
rights `R` holds `R AND NOT F` and the other entries are as they were; and
`R AND NOT F` is `R` exactly when `R` had no bit of `F`. -/
theorem addRight_deleteRight_clears_flag (F : Int) (username : List Char)
    (l : AccessControlList)
    (hF : F = R_OWN ∨ F = R_READ ∨ F = R_WRITE ∨ F = R_EXECUTE) (hne : l.aces ≠ []) :
    (deleteRight F username (addRight F username (some l)).2).2 =
        some { filename := l.filename,
               aces := l.aces.map (fun e => if cstr e.user = cstr username
                 then { user := e.user, rights := bitAnd e.rights (bitNot F) } else e) } ∧
      ∀ R : Int, bitAnd R (bitNot F) = R ↔ bitAnd R F = 0 := by
  refine ⟨?_, fun R => bitAnd_bitNot_eq_self_iff R F⟩
  rw [addRight_eq F username l hF hne]
  have hne2 : (l.aces.map (fun e => if cstr e.user = cstr username
      then ({ user := e.user, rights := bitOr e.rights F } : AccessControlEntry)
      else e)) ≠ [] := by
    simpa using hne
  rw [deleteRight_eq F username _ hF hne2]
  simp only [List.map_map]
  congr 2
  apply List.map_congr_left
  intro e _
  by_cases hm : cstr e.user = cstr username
  · simp [hm, bitAnd_bitOr_bitNot]
  · simp [hm]

theorem addRight_deleteRight_clears_flag_witness :
    (R_EXECUTE = R_OWN ∨ R_EXECUTE = R_READ ∨ R_EXECUTE = R_WRITE ∨ R_EXECUTE = R_EXECUTE) ∧
      [aceBob 5, aceAl 3, aceBob 6] ≠ [] ∧
      (deleteRight R_EXECUTE "bob".toList
        (addRight R_EXECUTE "bob".toList (aclOf [aceBob 5, aceAl 3, aceBob 6])).2).2
        = aclOf [aceBob 4, aceAl 3, aceBob 6] :=
  ⟨by decide, by decide,
    (addRight_deleteRight_clears_flag R_EXECUTE "bob".toList
      { filename := ['f', NUL, NUL, NUL], aces := [aceBob 5, aceAl 3, aceBob 6] }
      (by decide) (by decide)).1.trans (by decide)⟩

/-! ## The range of the rights (C16) -/

theorem canonical_of_not_invalid {right : Int} (h : invalidRight right = false) :
    right = R_OWN ∨ right = R_READ ∨ right = R_WRITE ∨ right = R_EXECUTE := by
  by_contra hc
  rw [invalid_of_not_canonical hc] at h
  exact absurd h (by decide)

theorem bitOr_range (r F : Int) (hr : 0 ≤ r ∧ r ≤ 15)
    (hF : F = R_OWN ∨ F = R_READ ∨ F = R_WRITE ∨ F = R_EXECUTE) :
    0 ≤ bitOr r F ∧ bitOr r F ≤ 15 := by
  obtain ⟨h0, h15⟩ := hr
  rcases hF with h | h | h | h <;> subst h <;> interval_cases r <;> decide

theorem bitAnd_bitNot_range (r F : Int) (hr : 0 ≤ r ∧ r ≤ 15)
    (hF : F = R_OWN ∨ F = R_READ ∨ F = R_WRITE ∨ F = R_EXECUTE) :
    0 ≤ bitAnd r (bitNot F) ∧ bitAnd r (bitNot F) ≤ 15 := by
  obtain ⟨h0, h15⟩ := hr
  rcases hF with h | h | h | h <;> subst h <;> interval_cases r <;> decide

/-- The loop of `deleteEntry` leaves only entries that were in the chain. -/
theorem deleteEntryLoop_subset (username : List Char) :
    ∀ (n : Nat) (es : List AccessControlEntry), es.length ≤ n →
      ∀ (found : Bool) (r : List AccessControlEntry × Bool),
        deleteEntryLoop username es found = .ok r → ∀ e ∈ r.1, e ∈ es := by
  intro n
  induction n with
  | zero =>
    intro es hlen found r hr e he
    have hnil : es = [] := List.length_eq_zero.mp (by omega)
    subst hnil
    simp only [deleteEntryLoop, Except.ok.injEq] at hr
    subst hr
    exact he
  | succ n ih =>
    intro es hlen found r hr e he
    match es, hlen, hr with
    | [], _, hr =>
      simp only [deleteEntryLoop, Except.ok.injEq] at hr
      subst hr
      exact he
    | [x], _, hr =>
      by_cases hx : strcmp x.user username = 0
      · simp [deleteEntryLoop, hx] at hr
      · simp only [deleteEntryLoop, hx, if_false, Except.ok.injEq] at hr
        subst hr
        exact he
    | x :: x2 :: rest, hlen, hr =>
      by_cases hx : strcmp x.user username = 0
      · simp only [deleteEntryLoop, hx, if_true] at hr
        cases hrec : deleteEntryLoop username rest true with
        | error f => simp [hrec] at hr
        | ok r2 =>
          simp only [hrec, Except.ok.injEq] at hr
          subst hr
          have hlen2 : rest.length ≤ n := by
            simp only [List.length_cons] at hlen
            omega
          rcases List.mem_cons.mp he with h | h
          · subst h
            simp
          · have := ih rest hlen2 true r2 hrec e h
            simp [this]
      · simp only [deleteEntryLoop, hx, if_false] at hr
        cases hrec : deleteEntryLoop username (x2 :: rest) found with
        | error f => simp [hrec] at hr
        | ok r2 =>
          simp only [hrec, Except.ok.injEq] at hr
          subst hr
          have hlen2 : (x2 :: rest).length ≤ n := by
            simp only [List.length_cons] at hlen ⊢
            omega
          rcases List.mem_cons.mp he with h | h
          · subst h
            simp
          · have := ih (x2 :: rest) hlen2 found r2 hrec e h
            exact List.mem_cons_of_mem x this

/-- One call keeps every rights value in 0..15 when an `addEntry` is given one
in that range. -/
theorem call_keeps_range (MAX_LENGTH : Nat) (acl acl2 : Option AccessControlList) (c : Call)
    (hinv : ∀ l, acl = some l → ∀ e ∈ l.aces, 0 ≤ e.rights ∧ e.rights ≤ 15)
    (hc : ∀ u r, c = Call.addEntry u r → 0 ≤ r ∧ r ≤ 15)
    (hcall : call MAX_LENGTH acl c = .ok acl2) :
    ∀ l, acl2 = some l → ∀ e ∈ l.aces, 0 ≤ e.rights ∧ e.rights ≤ 15 := by
  intro l2 hl2 e he
  cases acl with
  | none =>
    cases c <;> simp [call, addEntry, addRight, deleteRight, deleteEntry] at hcall <;>
      simp [← hcall] at hl2
  | some l =>
    have hl := hinv l rfl
    cases c with
    | addEntry u r =>
      have h1 : (addEntry MAX_LENGTH u r (some l)).2 =
          some { filename := l.filename,
                 aces := { user := (strncpy u MAX_LENGTH).set (MAX_LENGTH - 1) NUL,
                           rights := r } :: l.aces } := by
        cases l with
        | mk fn es => cases es <;> rfl
      simp only [call, h1, Except.ok.injEq] at hcall
      rw [← hcall] at hl2
      simp only [Option.some.injEq] at hl2
      subst hl2
      rcases List.mem_cons.mp he with h | h
      · subst h
        exact hc u r rfl
      · exact hl e h
    | addRight F u =>
      simp only [call, Except.ok.injEq] at hcall
      by_cases hne : l.aces = []
      · simp [addRight, hne] at hcall
        rw [← hcall] at hl2
        simp only [Option.some.injEq] at hl2
        subst hl2
        exact hl e he
      · by_cases hinvF : invalidRight F = true
        · simp [addRight, hne, hinvF] at hcall
          rw [← hcall] at hl2
          simp only [Option.some.injEq] at hl2
          subst hl2
          exact hl e he
        · have hF := canonical_of_not_invalid (by simpa using hinvF)
          rw [addRight_eq F u l hF hne] at hcall
          rw [← hcall] at hl2
          simp only [Option.some.injEq] at hl2
          subst hl2
          simp only [List.mem_map] at he
          obtain ⟨x, hx, hxe⟩ := he
          by_cases hm : cstr x.user = cstr u
          · simp only [hm, if_true] at hxe
            subst hxe
            exact bitOr_range x.rights F (hl x hx) hF
          · simp only [hm, if_false] at hxe
            subst hxe
            exact hl x hx
    | deleteRight F u =>
      simp only [call, Except.ok.injEq] at hcall
      by_cases hne : l.aces = []
      · simp [deleteRight, hne] at hcall
        rw [← hcall] at hl2
        simp only [Option.some.injEq] at hl2
        subst hl2
        exact hl e he
      · by_cases hinvF : invalidRight F = true
        · simp [deleteRight, hne, hinvF] at hcall
          rw [← hcall] at hl2
          simp only [Option.some.injEq] at hl2
          subst hl2
          exact hl e he
        · have hF := canonical_of_not_invalid (by simpa using hinvF)
          rw [deleteRight_eq F u l hF hne] at hcall
          rw [← hcall] at hl2
          simp only [Option.some.injEq] at hl2
          subst hl2
          simp only [List.mem_map] at he
          obtain ⟨x, hx, hxe⟩ := he
          by_cases hm : cstr x.user = cstr u
          · simp only [hm, if_true] at hxe
            subst hxe
            exact bitAnd_bitNot_range x.rights F (hl x hx) hF
          · simp only [hm, if_false] at hxe
            subst hxe
            exact hl x hx
    | deleteEntry u =>
      by_cases hne : l.aces = []
      · simp [call, deleteEntry, hne] at hcall
        rw [← hcall] at hl2
        simp only [Option.some.injEq] at hl2
        subst hl2
        exact hl e he
      · cases hloop : deleteEntryLoop u l.aces false with
        | error f => simp [call, deleteEntry, hne, hloop] at hcall
        | ok r =>
          have hsub := deleteEntryLoop_subset u l.aces.length l.aces (le_refl _) false r hloop
          have hacl2 : acl2 = some { filename := l.filename, aces := r.1 } := by
            cases hr2 : r.2 <;> simp [call, deleteEntry, hne, hloop, hr2] at hcall <;>
              exact hcall.symm
          rw [hacl2] at hl2
          simp only [Option.some.injEq] at hl2
          subst hl2
          exact hl e (hsub e he)

theorem runCalls_keeps_range (MAX_LENGTH : Nat) (calls : List Call) :
    ∀ (acl acl2 : Option AccessControlList),
      (∀ l, acl = some l → ∀ e ∈ l.aces, 0 ≤ e.rights ∧ e.rights ≤ 15) →
      (∀ u r, Call.addEntry u r ∈ calls → 0 ≤ r ∧ r ≤ 15) →
      runCalls MAX_LENGTH acl calls = .ok acl2 →
      ∀ l, acl2 = some l → ∀ e ∈ l.aces, 0 ≤ e.rights ∧ e.rights ≤ 15 := by
  induction calls with
  | nil =>
    intro acl acl2 hinv _ hrun
    simp only [runCalls, Except.ok.injEq] at hrun
    subst hrun
    exact hinv
  | cons c cs ih =>
    intro acl acl2 hinv hadd hrun
    cases hcall : call MAX_LENGTH acl c with
    | error f => simp [runCalls, hcall] at hrun
    | ok acl1 =>
      simp only [runCalls, hcall] at hrun
      have hinv1 := call_keeps_range MAX_LENGTH acl acl1 c hinv
        (fun u r hcu => hadd u r (by rw [hcu]; exact List.mem_cons_self _ _)) hcall
      exact ih acl1 acl2 hinv1 (fun u r hm => hadd u r (List.mem_cons_of_mem c hm)) hrun

/-- C16 fails because `addEntry` stores its `rights` argument as it is: after
`initializeACL` and `addEntry("al", 16)` the one entry has rights 16, outside
0..15. -/
theorem addEntry_stores_rights_out_of_range :
    runCalls 4 (initializeACL 4 "f".toList (some none)).2.join [Call.addEntry "al".toList 16]
        = .ok (aclOf [aceAl 16]) ∧
      ¬ ((0 : Int) ≤ (aceAl 16).rights ∧ (aceAl 16).rights ≤ 15) := by
  decide

/-- C16, amended: in every list reached from `initializeACL` by a sequence of
`addEntry`, `addRight`, `deleteRight` and `deleteEntry` calls in which every
`addEntry` is given a rights value in 0..15, the other arguments being
arbitrary, every entry's rights value lies in 0..15. -/
theorem rights_in_range_when_added_in_range (MAX_LENGTH : Nat) (filename : List Char)
    (calls : List Call) (l : AccessControlList)
    (hadd : ∀ u r, Call.addEntry u r ∈ calls → 0 ≤ r ∧ r ≤ 15)
    (hrun : runCalls MAX_LENGTH (initializeACL MAX_LENGTH filename (some none)).2.join calls
      = .ok (some l)) :
    ∀ e ∈ l.aces, 0 ≤ e.rights ∧ e.rights ≤ 15 := by
  have hinit : ∀ l0, (initializeACL MAX_LENGTH filename (some none)).2.join = some l0 →
      ∀ e ∈ l0.aces, 0 ≤ e.rights ∧ e.rights ≤ 15 := by
    intro l0 hl0 e he
    simp only [initializeACL, Option.join, Option.bind, id, Option.some.injEq] at hl0
    subst hl0
    simp at he
  exact runCalls_keeps_range MAX_LENGTH calls _ _ hinit hadd hrun l rfl

theorem rights_in_range_when_added_in_range_witness :
    (∀ u r, Call.addEntry u r ∈
        [Call.addEntry "al".toList 5, Call.addEntry "bob".toList 0,
          Call.addRight 8 "bob".toList, Call.addRight 16 "al".toList,
          Call.deleteRight 4 "al".toList, Call.deleteEntry "bob".toList] →
        0 ≤ r ∧ r ≤ 15) ∧
      runCalls 4 (initializeACL 4 "f".toList (some none)).2.join
        [Call.addEntry "al".toList 5, Call.addEntry "bob".toList 0,
          Call.addRight 8 "bob".toList, Call.addRight 16 "al".toList,
          Call.deleteRight 4 "al".toList, Call.deleteEntry "bob".toList]
        = .ok (aclOf [aceAl 1]) ∧
      ∀ e ∈ [aceAl 1], 0 ≤ e.rights ∧ e.rights ≤ 15 :=
  ⟨by
      intro u r h
      simp at h
      rcases h with ⟨_, h2⟩ | ⟨_, h2⟩ <;> subst h2 <;> decide,
    by decide,
    rights_in_range_when_added_in_range 4 "f".toList
      [Call.addEntry "al".toList 5, Call.addEntry "bob".toList 0,
        Call.addRight 8 "bob".toList, Call.addRight 16 "al".toList,
        Call.deleteRight 4 "al".toList, Call.deleteEntry "bob".toList]
      { filename := ['f', NUL, NUL, NUL], aces := [aceAl 1] }
      (by
        intro u r h
        simp at h
        rcases h with ⟨_, h2⟩ | ⟨_, h2⟩ <;> subst h2 <;> decide)
      (by decide)⟩

/-! ## Looking up a user just added (C20) -/

/-- With a canonical flag and an entry under the name, `addRight` and
`deleteRight` succeed, each alone and one after the other. -/
theorem rights_calls_succeed_of_match (F : Int) (u : List Char) (l : AccessControlList)
    (hF : F = R_OWN ∨ F = R_READ ∨ F = R_WRITE ∨ F = R_EXECUTE)
    (hex : ∃ e ∈ l.aces, cstr e.user = cstr u) :
    (addRight F u (some l)).1 = StatusCode.ADD_RIGHT_SUCCESS ∧
      (deleteRight F u (some l)).1 = StatusCode.DELETE_RIGHT_SUCCESS ∧
      (deleteRight F u (addRight F u (some l)).2).1 = StatusCode.DELETE_RIGHT_SUCCESS := by
  have hne : l.aces ≠ [] := by
    obtain ⟨e, he, _⟩ := hex
    exact List.ne_nil_of_mem he
  have hne2 : (l.aces.map (fun e => if cstr e.user = cstr u
      then ({ user := e.user, rights := bitOr e.rights F } : AccessControlEntry)
      else e)) ≠ [] := by
    simpa using hne
  have hex2 : ∃ e ∈ (l.aces.map (fun e => if cstr e.user = cstr u
      then ({ user := e.user, rights := bitOr e.rights F } : AccessControlEntry)
      else e)), cstr e.user = cstr u := by
    obtain ⟨e, he, hm⟩ := hex
    refine ⟨{ user := e.user, rights := bitOr e.rights F }, ?_, hm⟩
    rw [List.mem_map]
    exact ⟨e, he, by simp [hm]⟩
  refine ⟨?_, ?_, ?_⟩
  · rw [addRight_eq F u l hF hne]
    simp only [hex, if_true]
  · rw [deleteRight_eq F u l hF hne]
    simp only [hex, if_true]
  · rw [addRight_eq F u l hF hne, deleteRight_eq F u _ hF hne2]
    simp only [hex2, if_true]

/-- C20: `addEntry(u, r, L)` on a non-null list puts at the head an entry whose
user buffer holds `u` cut to `MAX_LENGTH - 1` characters.  When `u` has fewer
than `MAX_LENGTH` characters that entry is found under the name `u`:
`addRight` and `deleteRight` with a canonical flag, each alone or one after
the other, return their success code.  When `u` has `MAX_LENGTH` characters or
more the stored user differs from `u`, so `strcmp` does not match the new
entry with `u`. -/
theorem addEntry_then_lookup (MAX_LENGTH : Nat) (u : List Char) (r F : Int)
    (l : AccessControlList) (hM : 0 < MAX_LENGTH)
    (hF : F = R_OWN ∨ F = R_READ ∨ F = R_WRITE ∨ F = R_EXECUTE) :
    (addEntry MAX_LENGTH u r (some l)).2 =
        some { filename := l.filename,
               aces := { user := (strncpy u MAX_LENGTH).set (MAX_LENGTH - 1) NUL,
                         rights := r } :: l.aces } ∧
      ((cstr u).length < MAX_LENGTH →
        (addRight F u (addEntry MAX_LENGTH u r (some l)).2).1 = StatusCode.ADD_RIGHT_SUCCESS ∧
        (deleteRight F u (addEntry MAX_LENGTH u r (some l)).2).1
          = StatusCode.DELETE_RIGHT_SUCCESS ∧
        (deleteRight F u (addRight F u (addEntry MAX_LENGTH u r (some l)).2).2).1
          = StatusCode.DELETE_RIGHT_SUCCESS) ∧
      (MAX_LENGTH ≤ (cstr u).length →
        cstr ((strncpy u MAX_LENGTH).set (MAX_LENGTH - 1) NUL) ≠ cstr u ∧
        strcmp ((strncpy u MAX_LENGTH).set (MAX_LENGTH - 1) NUL) u ≠ 0) := by
  have hbuf := (userBuffer_spec u MAX_LENGTH hM).2
  have h1 : (addEntry MAX_LENGTH u r (some l)).2 =
      some { filename := l.filename,
             aces := { user := (strncpy u MAX_LENGTH).set (MAX_LENGTH - 1) NUL,
                       rights := r } :: l.aces } := by
    cases l with
    | mk fn es => cases es <;> rfl
  refine ⟨h1, ?_, ?_⟩
  · intro hlen
    have hsame : cstr ((strncpy u MAX_LENGTH).set (MAX_LENGTH - 1) NUL) = cstr u := by
      rw [hbuf, List.take_of_length_le (by omega)]
    rw [h1]
    exact rights_calls_succeed_of_match F u _ hF ⟨_, List.mem_cons_self _ _, hsame⟩
  · intro hlen
    have hdiff : cstr ((strncpy u MAX_LENGTH).set (MAX_LENGTH - 1) NUL) ≠ cstr u := by
      intro heq
      have hl := congrArg List.length heq
      rw [hbuf, List.length_take] at hl
      omega
    exact ⟨hdiff, fun h0 => hdiff ((strcmp_eq_zero_iff _ _).mp h0)⟩

theorem addEntry_then_lookup_witness :
    0 < 4 ∧ (R_WRITE = R_OWN ∨ R_WRITE = R_READ ∨ R_WRITE = R_WRITE ∨ R_WRITE = R_EXECUTE) ∧
      (cstr "al".toList).length < 4 ∧ 4 ≤ (cstr "alice".toList).length ∧
      (addRight R_WRITE "al".toList (addEntry 4 "al".toList 33 (aclOf [aceBob 1])).2).1
        = StatusCode.ADD_RIGHT_SUCCESS ∧
      (addEntry 4 "alice".toList 33 (aclOf [aceBob 1])).2
        = aclOf [{ user := ['a', 'l', 'i', NUL], rights := 33 }, aceBob 1] ∧
      strcmp ((strncpy "alice".toList 4).set (4 - 1) NUL) "alice".toList ≠ 0 :=
  ⟨by decide, by decide, by decide, by decide,
    ((addEntry_then_lookup 4 "al".toList 33 R_WRITE
      { filename := ['f', NUL, NUL, NUL], aces := [aceBob 1] } (by decide) (by decide)).2.1
      (by decide)).1,
    (addEntry_then_lookup 4 "alice".toList 33 R_WRITE
      { filename := ['f', NUL, NUL, NUL], aces := [aceBob 1] } (by decide) (by decide)).1.trans
      (by decide),
    ((addEntry_then_lookup 4 "alice".toList 33 R_WRITE
      { filename := ['f', NUL, NUL, NUL], aces := [aceBob 1] } (by decide) (by decide)).2.2
      (by decide)).2⟩

end ACL
